import Mathlib

/-!
Verification development for the MovieRipper repository.

The Python sources under MovieRipper/ are shallowly embedded:
strings are `List Char`, floats (file durations, scores, mtimes) are
modelled as rationals, raised exceptions are `Except` errors, and the
filesystem is an explicit state record threaded through the functions
that touch it.  External processes (ffprobe, MakeMKV, the drive check)
are modelled as oracle parameters.  Each definition names the source
function it embeds.
-/

/-- Lowercase an ASCII letter; other characters unchanged.  Models
Python case-insensitive matching (re.IGNORECASE) restricted to ASCII. -/
def lowerAscii (c : Char) : Char :=
  if 'A' ≤ c ∧ c ≤ 'Z' then Char.ofNat (c.toNat + 32) else c

/-- ASCII decimal digit test, modelling the regex class \d on ASCII input. -/
def isDigitCh (c : Char) : Bool :=
  '0' ≤ c ∧ c ≤ '9'

/-- ASCII whitespace test, modelling the regex class \s (and Python
str.strip with no arguments) on ASCII input. -/
def isSpaceCh (c : Char) : Bool :=
  c = ' ' ∨ c = '\t' ∨ c = '\n' ∨ c = '\r' ∨ c = '\x0b' ∨ c = '\x0c'

/-- Decimal value of a digit string, modelling Python int() on the
digit group captured by a regex. -/
def digitsVal (l : List Char) : ℕ :=
  l.foldl (fun n c => n * 10 + (c.toNat - '0'.toNat)) 0

/-- Contiguous-substring test: does hay contain needle?  Models the
Python expression needle in hay on str. -/
def containsSub (needle hay : List Char) : Bool :=
  hay.tails.any (fun t => needle.isPrefixOf t)

/-- MovieRipper/keeper.py: the final path component of a path string
(Path(path).name); both separators are treated as Windows pathlib does. -/
def fileName (s : List Char) : List Char :=
  (s.reverse.takeWhile (fun c => ¬(c = '/' ∨ c = '\\'))).reverse

/-- MovieRipper/keeper.py ANGLE_RE: does the regex angle\s*(\d+)
(IGNORECASE) match at the very start of cs?  Returns the value of the
digit group.  A match here needs the five letters of angle, then any
run of whitespace, then at least one digit (the digit run is taken
greedily, as \d+ does). -/
def angleMatchAt (cs : List Char) : Option ℕ :=
  if (cs.take 5).map lowerAscii = "angle".toList then
    let ds := ((cs.drop 5).dropWhile isSpaceCh).takeWhile isDigitCh
    if ds = [] then none else some (digitsVal ds)
  else none

/-- Leftmost-match search for ANGLE_RE (re.search semantics): try every
start position, left to right. -/
def searchAngle : List Char → Option ℕ
  | [] => none
  | c :: rest =>
    match angleMatchAt (c :: rest) with
    | some n => some n
    | none => searchAngle rest

/-- MovieRipper/keeper.py label_angle: search the filename of the path
for an angle marker, returning its number. -/
def label_angle (path : List Char) : Option ℕ :=
  searchAngle (fileName path)

/-- MovieRipper/keeper.py audio_score: per-track points accumulated
over the codec list, first matching rule wins per track.  The first two
rules are substring tests; the remaining rules are exact string
equality, exactly as in the source (the probe has already lower-cased
codec names). -/
def audio_score (codecs : List (List Char)) : ℕ :=
  codecs.foldl (fun score c =>
    if containsSub "truehd".toList c then score + 50
    else if containsSub "dts".toList c ∧ containsSub "hd".toList c then score + 40
    else if c = "dts".toList then score + 30
    else if c = "eac3".toList ∨ c = "ec-3".toList then score + 20
    else if c = "ac3".toList then score + 15
    else if c = "aac".toList then score + 10
    else score + 5) 0

/-- Per-track points of the amended audio-preference rule (substring
tests for the two HD rules, exact equality for the rest).  Stated
separately from audio_score so that audio_score can be proved to be the
sum of these per-track points. -/
def trackPoints (c : List Char) : ℕ :=
  if containsSub "truehd".toList c then 50
  else if containsSub "dts".toList c ∧ containsSub "hd".toList c then 40
  else if c = "dts".toList then 30
  else if c = "eac3".toList ∨ c = "ec-3".toList then 20
  else if c = "ac3".toList then 15
  else if c = "aac".toList then 10
  else 5

/-- Per-track points as the original claim words them: case-insensitive
substring checks in priority order (TrueHD, DTS-HD, plain DTS, E-AC3,
AC3, AAC, else), first match wins.  This definition follows the claim
text, not the source; it is compared against the source definition. -/
def trackPointsClaim (c : List Char) : ℕ :=
  let lc := c.map lowerAscii
  if containsSub "truehd".toList lc then 50
  else if containsSub "dts".toList lc ∧ containsSub "hd".toList lc then 40
  else if containsSub "dts".toList lc then 30
  else if containsSub "eac3".toList lc ∨ containsSub "ec-3".toList lc then 20
  else if containsSub "ac3".toList lc then 15
  else if containsSub "aac".toList lc then 10
  else 5

/-- MovieRipper/ffprobe_utils.py MediaInfo: probe result for one file.
Float fields (duration) are modelled as rationals. -/
structure MediaInfo where
  path : List Char
  duration : ℚ
  size_bytes : ℤ
  video_codec : Option (List Char)
  width : Option ℤ
  height : Option ℤ
  audio_codecs : List (List Char)
  audio_tracks : ℕ
  subtitle_tracks : ℕ
deriving DecidableEq

/-- Errors raised by the pipeline, one constructor per raise site:
probeFailure models the RuntimeError of ffprobe_utils.run_ffprobe,
noCandidate the RuntimeError of keeper.pick_keeper, noJobFile and
noMkvFiles the two RuntimeErrors of pipeline.process_rip_folder_to_staging,
destinationExists its destination check, and indexError the IndexError
Python would raise on bucket_sorted[0] with an empty bucket (reachable
only with a negative duration tolerance). -/
inductive RipError where
  | probeFailure (path : List Char)
  | noCandidate
  | noJobFile
  | noMkvFiles
  | destinationExists (path : List Char)
  | indexError
deriving DecidableEq

/-- MovieRipper/keeper.py pick_keeper, line 29: probe every path; the
first probe failure raises.  The external ffprobe invocation is the
oracle probe; none models a failing probe. -/
def probeAll (probe : List Char → Option MediaInfo) :
    List (List Char) → Except RipError (List MediaInfo)
  | [] => Except.ok []
  | p :: rest =>
    match probe p with
    | none => Except.error (RipError.probeFailure p)
    | some i =>
      match probeAll probe rest with
      | Except.error e => Except.error e
      | Except.ok is => Except.ok (i :: is)

/-- MovieRipper/keeper.py pick_keeper, line 31: survivors of the
minimum-duration filter (duration at least min_minutes*60 seconds). -/
def candidatesOf (infos : List MediaInfo) (min_minutes : ℚ) : List MediaInfo :=
  infos.filter (fun i => decide (min_minutes * 60 ≤ i.duration))

/-- MovieRipper/keeper.py pick_keeper, line 35: maximum duration among
the candidates (max() of the durations; 0 for the empty list, on which
the source never calls it). -/
def maxDuration : List MediaInfo → ℚ
  | [] => 0
  | i :: rest => rest.foldl (fun m j => max m j.duration) i.duration

/-- MovieRipper/keeper.py pick_keeper, line 36: the longest bucket, all
candidates whose duration is within duration_tol of the maximum. -/
def bucketOf (cands : List MediaInfo) (duration_tol : ℚ) : List MediaInfo :=
  cands.filter (fun i => decide (|i.duration - maxDuration cands| ≤ duration_tol))

/-- MovieRipper/keeper.py pick_keeper, lines 48-50: the heuristic score
(estimated bitrate in MB/s, audio preference, subtitle and audio track
counts). -/
def keeperScore (i : MediaInfo) : ℚ :=
  ((i.size_bytes : ℚ) / max i.duration 1) / 1000000
    + (audio_score i.audio_codecs : ℚ) / 10
    + (i.subtitle_tracks : ℚ) * (1 / 10)
    + (i.audio_tracks : ℚ) * (1 / 20)

/-- Comparison used to embed sorted(bucket, key=score, reverse=True):
a stable merge sort under this relation puts higher scores first and
keeps the original order between equal scores, which is exactly what
Python's stable descending sort does. -/
def scoreDesc (a b : MediaInfo) : Bool :=
  decide (keeperScore b ≤ keeperScore a)

/-- MovieRipper/keeper.py pick_keeper: probe, filter by minimum
duration (raising when nothing survives), form the longest bucket,
return a singleton bucket directly, otherwise prefer an angle-1 label
when asked to, otherwise return the head of the bucket stably sorted by
descending score. -/
def pick_keeper (probe : List Char → Option MediaInfo)
    (mkv_paths : List (List Char)) (min_minutes duration_tol : ℚ)
    (prefer_angle_1 : Bool) : Except RipError MediaInfo :=
  match probeAll probe mkv_paths with
  | Except.error e => Except.error e
  | Except.ok infos =>
    let candidates := candidatesOf infos min_minutes
    if candidates = [] then Except.error RipError.noCandidate
    else
      let bucket := bucketOf candidates duration_tol
      match bucket with
      | [i] => Except.ok i
      | _ =>
        match (if prefer_angle_1 then
                 bucket.find? (fun i => label_angle i.path = some 1)
               else none) with
        | some i => Except.ok i
        | none =>
          match bucket.mergeSort scoreDesc with
          | [] => Except.error RipError.indexError
          | best :: _ => Except.ok best

/-- MovieRipper/pipeline.py safe_name, line 56: is c one of the
filesystem-illegal characters replaced by underscore? -/
def badChar (c : Char) : Bool :=
  c ∈ ['<', '>', ':', '"', '/', '\\', '|', '?', '*']

/-- MovieRipper/pipeline.py safe_name, line 57: replace every illegal
character by an underscore. -/
def replaceBad (s : List Char) : List Char :=
  s.map (fun c => if badChar c then '_' else c)

/-- One execution of out.replace("  ", " "): scan left to right,
rewriting non-overlapping double blanks to single blanks. -/
def replacePairPass : List Char → List Char
  | ' ' :: ' ' :: rest => ' ' :: replacePairPass rest
  | c :: rest => c :: replacePairPass rest
  | [] => []

/-- The loop condition of safe_name (the Python expression with a
two-blank needle): does the string contain two adjacent blanks? -/
def hasPair (s : List Char) : Bool :=
  containsSub "  ".toList s

/-- The while loop of safe_name, with explicit fuel.  Each iteration
that fires shortens the string, so fuel equal to the length always
suffices (proved below); collapseLoop supplies that fuel. -/
def collapseLoopFuel : ℕ → List Char → List Char
  | 0, s => s
  | fuel + 1, s => if hasPair s then collapseLoopFuel fuel (replacePairPass s) else s

/-- MovieRipper/pipeline.py safe_name, lines 58-59: repeat the
double-blank replacement until no double blank remains. -/
def collapseLoop (s : List Char) : List Char :=
  collapseLoopFuel s.length s

/-- Python str.strip() (no arguments): drop leading and trailing
whitespace. -/
def stripChars (s : List Char) : List Char :=
  ((s.dropWhile isSpaceCh).reverse.dropWhile isSpaceCh).reverse

/-- MovieRipper/pipeline.py safe_name: replace illegal characters,
collapse double blanks, strip. -/
def safe_name (s : List Char) : List Char :=
  stripChars (collapseLoop (replaceBad s))

/-- MovieRipper/pipeline.py Job: one queue item / one disc. -/
structure Job where
  clz_index : ℤ
  title : List Char
  year : Option ℤ
  imdb_id : List Char
deriving DecidableEq

/-- Decimal rendering of an integer, modelling Python str() inside
f-strings. -/
def intChars (i : ℤ) : List Char :=
  (toString i).toList

/-- MovieRipper/pipeline.py plex_base_name: title, optional year in
parentheses (note the Python truthiness test if job.year: also skips a
year of 0), CLZ index in brackets, IMDb tag in braces, sanitized. -/
def plex_base_name (j : Job) : List Char :=
  let base := j.title
  let base := match j.year with
    | some y => if y = 0 then base else base ++ " (".toList ++ intChars y ++ ")".toList
    | none => base
  let base := base ++ " [clz-".toList ++ intChars j.clz_index ++ "]".toList
  let base := base ++ " \x7bimdb-".toList ++ j.imdb_id ++ "\x7d".toList
  safe_name base

/-- MovieRipper/pipeline.py is_idle: the folder is modelled by the list
of modification times of the files under it (glob("**/*") restricted to
files); now is the current clock.  Idle means some file exists (latest
is nonzero) and the most recent modification is at least idle_seconds
old. -/
def is_idle (mtimes : List ℚ) (now : ℚ) (idle_seconds : ℤ) : Bool :=
  let latest := mtimes.foldl (fun l m => max l m) 0
  if latest = 0 then false else decide ((idle_seconds : ℚ) ≤ now - latest)

/-- Pure-Python path suffix (Path(p).suffix): the final dot-suffix of
the last path component, empty when the last dot is at position 0 or at
the very end or absent. -/
def pathSuffix (p : List Char) : List Char :=
  let name := fileName p
  let revAfter := name.reverse.takeWhile (fun c => ¬(c = '.'))
  if revAfter.length + 1 < name.length ∧ 0 < revAfter.length then
    '.' :: revAfter.reverse
  else []

/-- Path join with a forward slash, modelling the pathlib / operator
(the separator itself plays no role in any claim). -/
def joinPath (a b : List Char) : List Char :=
  a ++ "/".toList ++ b

/-- Filesystem state threaded through the pipeline: existing files as
an association list from path to an abstract content tag, plus the set
of existing directories.  File bodies (job JSON, receipt JSON, rip-tool
logs) are abstracted to numeric tags; the claims only concern which
paths exist and whether their content changed. -/
structure FS where
  files : List (List Char × ℕ)
  dirs : List (List Char)
deriving DecidableEq

/-- Does a file exist at path p? -/
def FS.fileExists (fs : FS) (p : List Char) : Bool :=
  fs.files.any (fun e => e.1 = p)

/-- Content tag of the file at path p, if any. -/
def FS.lookup (fs : FS) (p : List Char) : Option ℕ :=
  (fs.files.find? (fun e => e.1 = p)).map (fun e => e.2)

/-- mkdir(parents=True, exist_ok=True), with parent creation
abstracted: record the directory as existing. -/
def FS.mkdirp (fs : FS) (d : List Char) : FS :=
  if fs.dirs.contains d then fs else ⟨fs.files, d :: fs.dirs⟩

/-- Create or overwrite the file at path p with content tag t. -/
def FS.writeFile (fs : FS) (p : List Char) (t : ℕ) : FS :=
  ⟨(p, t) :: fs.files.filter (fun e => ¬(e.1 = p)), fs.dirs⟩

/-- Remove the file at path p. -/
def FS.removeFile (fs : FS) (p : List Char) : FS :=
  ⟨fs.files.filter (fun e => ¬(e.1 = p)), fs.dirs⟩

/-- shutil.copy2: copy the source content to the destination. -/
def FS.copyFile (fs : FS) (src dst : List Char) : FS :=
  match fs.lookup src with
  | some t => fs.writeFile dst t
  | none => fs

/-- shutil.move: copy then remove the source. -/
def FS.moveFile (fs : FS) (src dst : List Char) : FS :=
  match fs.lookup src with
  | some t => (fs.writeFile dst t).removeFile src
  | none => fs

/-- Content tag used for the receipt JSON written by the pipeline (the
receipt body itself is abstracted). -/
def receiptTag : ℕ := 1

/-- File name of the per-folder receipt. -/
def receiptName : List Char := ".movieripper.receipt.json".toList

/-- MovieRipper/pipeline.py process_rip_folder_to_staging.  The job
record (result of load_job) and the *.mkv glob are inputs; the probe
oracle stands for ffprobe.  Returns the raised error or the destination
path, together with the filesystem as left behind (Python exceptions
propagate after earlier side effects, so the state is returned in both
cases). -/
def process_rip_folder_to_staging (probe : List Char → Option MediaInfo)
    (rip_folder staging_root : List Char) (jobq : Option Job)
    (mkvs : List (List Char)) (min_minutes_main : ℚ) (duration_tol : ℚ)
    (prefer_angle_1 : Bool) (move_mode : List Char) (fs : FS) :
    Except RipError (List Char) × FS :=
  match jobq with
  | none => (Except.error RipError.noJobFile, fs)
  | some job =>
    if mkvs = [] then (Except.error RipError.noMkvFiles, fs)
    else
      match pick_keeper probe mkvs min_minutes_main duration_tol prefer_angle_1 with
      | Except.error e => (Except.error e, fs)
      | Except.ok keeper =>
        let base := plex_base_name job
        let dest_dir := joinPath staging_root base
        let fs1 := fs.mkdirp dest_dir
        let dest_path := joinPath dest_dir (base ++ pathSuffix keeper.path)
        if fs1.fileExists dest_path then
          (Except.error (RipError.destinationExists dest_path), fs1)
        else
          let fs2 := if move_mode.map lowerAscii = "copy".toList
            then fs1.copyFile keeper.path dest_path
            else fs1.moveFile keeper.path dest_path
          let fs3 := fs2.writeFile (joinPath rip_folder receiptName) receiptTag
          (Except.ok dest_path, fs3)

/-- MovieRipper/ripper.py disc_present, line 66: does the regex
TCOUNT:(\d+) match at the very start of cs?  The match needs the
literal TCOUNT: (case-sensitive, no IGNORECASE here) followed by at
least one digit; the digit run is greedy. -/
def tcountMatchAt (cs : List Char) : Option ℕ :=
  if cs.take 7 = "TCOUNT:".toList then
    let ds := (cs.drop 7).takeWhile isDigitCh
    if ds = [] then none else some (digitsVal ds)
  else none

/-- Leftmost-match search for TCOUNT:(\d+) (re.search semantics). -/
def searchTcount : List Char → Option ℕ
  | [] => none
  | c :: rest =>
    match tcountMatchAt (c :: rest) with
    | some n => some n
    | none => searchTcount rest

/-- MovieRipper/ripper.py disc_present as a function of the combined
stdout+stderr text of the info call, the timed-out flag (both from
_get_info_text), and the result of the _drive_has_media filesystem
check on the parsed drive letter (an external oracle).  First TCOUNT
match decides alone; otherwise CINFO:/TINFO: markers mean present;
otherwise present only when the info call timed out and the drive check
succeeded. -/
def disc_present (txt : List Char) (timed_out : Bool)
    (drive_has_media : Bool) : Bool :=
  match searchTcount txt with
  | some n => decide (0 < n)
  | none =>
    if containsSub "CINFO:".toList txt ∨ containsSub "TINFO:".toList txt then true
    else if timed_out ∧ drive_has_media then true
    else false

/-- Condition worded as in the claim: the output contains a title-count
field TCOUNT:N with N greater than 0 somewhere.  This definition
follows the claim text, not the source; it is compared against
disc_present. -/
def containsPosTcount (txt : List Char) : Bool :=
  txt.tails.any (fun t =>
    match tcountMatchAt t with
    | some n => decide (0 < n)
    | none => false)

/-- MovieRipper/watcher.py run_queue: one queue item as read from the
queue JSON. -/
structure QueueItem where
  clz_index : ℤ
  title : List Char
  year : Option ℤ
  imdb_id : List Char
deriving DecidableEq

/-- Per-item outcome of a queue run: either the item was skipped
because the rip produced no MKV files, or it completed with a
destination path. -/
inductive ItemOutcome where
  | skippedNoMkvs
  | completed (dest : List Char)
deriving DecidableEq

/-- External world of a queue run: the ffprobe oracle, the list of MKV
paths found in the rip folder after ripping the i-th item (the *.mkv
glob at watcher.py line 129), and the timestamp tag used in the i-th
rip-folder name (time.strftime at watcher.py line 19). -/
structure RunEnv where
  probe : List Char → Option MediaInfo
  ripOutputs : ℕ → List (List Char)
  nowTag : ℕ → List Char

/-- File name of the per-folder job marker. -/
def jobFilename : List Char := ".movieripper.job.json".toList

/-- Content tags for the job marker and the three rip-tool artifact
files written by run_queue (bodies abstracted). -/
def jobTag : ℕ := 2

/-- Content tag for the rip-tool artifact files. -/
def artifactTag : ℕ := 3

/-- Configuration slice of run_queue relevant to per-item processing
(watcher.py lines 54-68), after defaulting. -/
structure RunCfg where
  rip_prep_root : List Char
  rip_staging_root : List Char
  min_minutes_main : ℚ
  duration_tol : ℚ
  prefer_angle_1 : Bool
  move_mode : List Char

/-- MovieRipper/watcher.py run_queue, lines 82-195, for a run with
stop_event=None (so every should_stop() check is False and no stop
branch can fire) and with every disc wait terminating.  For each item
in order: build the rip folder name from the CLZ index, title and
timestamp tag; create the folder; write the job marker and the three
rip-tool artifact files; if the rip produced no MKV files, skip the
item and continue (watcher.py line 134); otherwise run
process_rip_folder_to_staging — whose raised error, in the source, is
not caught anywhere in run_queue and therefore aborts the whole run,
which this embedding renders by returning that error without touching
the remaining items.  Ejecting is a device action with no filesystem
effect and is not modelled. -/
def run_queue_items (env : RunEnv) (cfg : RunCfg) :
    List QueueItem → ℕ → FS → Except RipError (List ItemOutcome) × FS
  | [], _, fs => (Except.ok [], fs)
  | it :: rest, i, fs =>
    let folder := joinPath cfg.rip_prep_root
      (safe_name (intChars it.clz_index ++ "_".toList ++ it.title
        ++ "_".toList ++ env.nowTag i))
    let fs := fs.mkdirp folder
    let job : Job := ⟨it.clz_index, it.title, it.year, it.imdb_id⟩
    let fs := fs.writeFile (joinPath folder jobFilename) jobTag
    let fs := fs.writeFile (joinPath folder "_makemkv_stdout.txt".toList) artifactTag
    let fs := fs.writeFile (joinPath folder "_makemkv_stderr.txt".toList) artifactTag
    let fs := fs.writeFile (joinPath folder "_makemkv_returncode.txt".toList) artifactTag
    let mkvs := env.ripOutputs i
    if mkvs = [] then
      match run_queue_items env cfg rest (i + 1) fs with
      | (Except.error e, fs2) => (Except.error e, fs2)
      | (Except.ok outs, fs2) => (Except.ok (ItemOutcome.skippedNoMkvs :: outs), fs2)
    else
      match process_rip_folder_to_staging env.probe folder cfg.rip_staging_root
        (some job) mkvs cfg.min_minutes_main cfg.duration_tol
        cfg.prefer_angle_1 cfg.move_mode fs with
      | (Except.error e, fs2) => (Except.error e, fs2)
      | (Except.ok dest, fs2) =>
        match run_queue_items env cfg rest (i + 1) fs2 with
        | (Except.error e, fs3) => (Except.error e, fs3)
        | (Except.ok outs, fs3) => (Except.ok (ItemOutcome.completed dest :: outs), fs3)

/-- Test fixture: a MediaInfo with the given path, duration and size
and no codec or track data, used to instantiate witnesses. -/
def mkInfo (p : List Char) (d : ℚ) (sz : ℤ) : MediaInfo :=
  ⟨p, d, sz, none, none, none, [], 0, 0⟩

/-- Test fixture: a probe oracle backed by a finite table from path to
probe result, used to instantiate witnesses. -/
def probeTable (tbl : List (List Char × MediaInfo)) :
    List Char → Option MediaInfo :=
  fun p => ((tbl.find? (fun e => e.1 = p)).map (fun e => e.2))

/-- The accumulator of audio_score distributes: folding from a adds the
sum of per-track points to a. -/
theorem audio_score_foldl (codecs : List (List Char)) (a : ℕ) :
    codecs.foldl (fun score c =>
      if containsSub "truehd".toList c then score + 50
      else if containsSub "dts".toList c ∧ containsSub "hd".toList c then score + 40
      else if c = "dts".toList then score + 30
      else if c = "eac3".toList ∨ c = "ec-3".toList then score + 20
      else if c = "ac3".toList then score + 15
      else if c = "aac".toList then score + 10
      else score + 5) a = a + (codecs.map trackPoints).sum := by
  induction codecs generalizing a with
  | nil => simp
  | cons c rest ih =>
    simp only [List.foldl_cons, List.map_cons, List.sum_cons, ih, trackPoints]
    split_ifs <;> ring

/-- Claim C2, counterexample: the claim says the per-track points come
from case-insensitive substring checks, so that any codec string
containing dts but not hd scores 30; but audio_score compares the
plain-DTS, E-AC3, AC3 and AAC rules by exact string equality, and the
codec string dts-es (which contains dts and not hd) falls through to
the anything-else rule and scores 5, not 30. -/
theorem audio_score_substring_claim_false :
    audio_score ["dts-es".toList] = 5 ∧
    trackPointsClaim "dts-es".toList = 30 ∧
    containsSub "dts".toList "dts-es".toList = true ∧
    containsSub "hd".toList "dts-es".toList = false := by
  refine ⟨by decide, by decide, by decide, by decide⟩

/-- Claim C2 (amended): the audio preference score is the sum of
per-track points where the TrueHD (50) and DTS-HD (40) rules are
substring checks on the codec string, the plain-DTS (30), E-AC3 (20,
matching exactly eac3 or ec-3), AC3 (15) and AAC (10) rules are exact
string-equality checks, anything else scores 5, and the first matching
rule in that priority order wins for each track; the checks are
case-sensitive (the probe lower-cases codec names before scoring). -/
theorem audio_score_sums_track_points (codecs : List (List Char)) :
    audio_score codecs = (codecs.map trackPoints).sum := by
  simpa [audio_score] using audio_score_foldl codecs 0

/-- Claim C9, counterexample: the claim says disc_present returns true
iff the output contains a title-count field TCOUNT:N with N greater
than 0; but the code uses only the first (leftmost) TCOUNT match, so an
output whose first count is 0 yields false even though a later
TCOUNT:2 field with a positive count is present. -/
theorem disc_present_contains_claim_false :
    disc_present "TCOUNT:0 TCOUNT:2".toList false false = false ∧
    containsPosTcount "TCOUNT:0 TCOUNT:2".toList = true := by
  refine ⟨by decide, by decide⟩

/-- Claim C9 (amended): disc presence, as a function of the info
tool's combined text output, the timed-out flag and the drive
filesystem check, is decided by the first (leftmost) TCOUNT:N field
alone when one is present (true iff that N is positive, even when
CINFO:/TINFO: markers appear); when no TCOUNT field parses, the output
is treated as present if it contains a CINFO: or TINFO: marker; and
with neither a count nor markers, the result is true exactly when the
info call timed out and the drive filesystem check succeeded. -/
theorem disc_present_cascade (txt : List Char) (timed_out drive_has_media : Bool) :
    (∀ n, searchTcount txt = some n →
      disc_present txt timed_out drive_has_media = decide (0 < n)) ∧
    (searchTcount txt = none →
      (containsSub "CINFO:".toList txt ∨ containsSub "TINFO:".toList txt) →
      disc_present txt timed_out drive_has_media = true) ∧
    (searchTcount txt = none →
      containsSub "CINFO:".toList txt = false →
      containsSub "TINFO:".toList txt = false →
      disc_present txt timed_out drive_has_media = (timed_out && drive_has_media)) := by
  refine ⟨?_, ?_, ?_⟩
  · intro n hn
    simp [disc_present, hn]
  · intro hn hm
    simp only [disc_present, hn]
    rw [if_pos hm]
  · intro hn h1 h2
    simp only [disc_present, hn]
    have hcond : ¬(containsSub "CINFO:".toList txt = true ∨
        containsSub "TINFO:".toList txt = true) := by
      rintro (h | h)
      · rw [h1] at h; exact Bool.false_ne_true h
      · rw [h2] at h; exact Bool.false_ne_true h
    rw [if_neg hcond]
    cases timed_out <;> cases drive_has_media <;> simp

/-- Witness for the amended claim C9 at concrete inputs: an output with
TCOUNT:3 is present, an output with only CINFO: is present, and an
empty output is present exactly on a timeout with media in the drive. -/
theorem disc_present_cascade_witness :
    disc_present "TCOUNT:3".toList false false = true ∧
    disc_present "CINFO:x".toList false false = true ∧
    disc_present "".toList true true = true ∧
    disc_present "".toList true false = false := by
  refine ⟨?_, ?_, ?_, ?_⟩
  · have h := (disc_present_cascade "TCOUNT:3".toList false false).1 3 (by decide)
    simpa using h
  · have h := (disc_present_cascade "CINFO:x".toList false false).2.1 (by decide)
      (Or.inl (by decide))
    simpa using h
  · have h := (disc_present_cascade "".toList true true).2.2 (by decide) (by decide)
      (by decide)
    simpa using h
  · have h := (disc_present_cascade "".toList true false).2.2 (by decide) (by decide)
      (by decide)
    simpa using h

/-- The seed of the latest-modification fold of is_idle bounds the
fold result from below. -/
theorem foldl_max_seed_le (l : List ℚ) (a : ℚ) :
    a ≤ l.foldl (fun b m => max b m) a := by
  induction l generalizing a with
  | nil => exact le_refl a
  | cons y t ih =>
    exact le_trans (le_max_left a y) (ih (max a y))

/-- The latest-modification fold of is_idle bounds every element of the
list from above. -/
theorem foldl_max_ge (l : List ℚ) (a : ℚ) :
    ∀ x ∈ l, x ≤ l.foldl (fun b m => max b m) a := by
  induction l generalizing a with
  | nil => intro x hx; cases hx
  | cons y t ih =>
    intro x hx
    rw [List.mem_cons] at hx
    rcases hx with hx | hx
    · rw [hx, List.foldl_cons]
      exact le_trans (le_max_right a y) (foldl_max_seed_le t (max a y))
    · exact ih (max a y) x hx

/-- The latest-modification fold of is_idle returns its seed or some
element of the list. -/
theorem foldl_max_mem (l : List ℚ) (a : ℚ) :
    l.foldl (fun b m => max b m) a = a ∨ l.foldl (fun b m => max b m) a ∈ l := by
  induction l generalizing a with
  | nil => exact Or.inl rfl
  | cons y t ih =>
    rw [List.foldl_cons]
    rcases ih (max a y) with h | h
    · rcases le_total a y with hy | hy
      · right
        rw [h, max_eq_right hy]
        exact List.mem_cons_self y t
      · left
        rw [h, max_eq_left hy]
    · exact Or.inr (List.mem_cons_of_mem y h)

/-- Claim C10: is_idle is false on a folder with no files (latest stays
0), and whenever it is true the folder has at least one file and the
most recent modification time is at least idle_seconds in the past. -/
theorem is_idle_requires_file (mtimes : List ℚ) (now : ℚ) (idle_seconds : ℤ) :
    is_idle [] now idle_seconds = false ∧
    (is_idle mtimes now idle_seconds = true →
      mtimes ≠ [] ∧ ∃ m ∈ mtimes, (∀ x ∈ mtimes, x ≤ m) ∧
        (idle_seconds : ℚ) ≤ now - m) := by
  constructor
  · simp [is_idle]
  · intro h
    simp only [is_idle] at h
    by_cases h0 : mtimes.foldl (fun b m => max b m) 0 = 0
    · rw [if_pos h0] at h; cases h
    · rw [if_neg h0] at h
      rcases foldl_max_mem mtimes 0 with hmem | hmem
      · exact absurd hmem h0
      · refine ⟨?_, mtimes.foldl (fun b m => max b m) 0, hmem, ?_, ?_⟩
        · rintro rfl; cases hmem
        · intro x hx
          exact foldl_max_ge mtimes 0 x hx
        · exact of_decide_eq_true h

/-- Witness for claim C10 at a concrete folder: one file modified at
time 10, clock 250, idle window 180 seconds. -/
theorem is_idle_requires_file_witness :
    is_idle [] 250 180 = false ∧
    ([(10 : ℚ)] ≠ [] ∧ ∃ m ∈ [(10 : ℚ)], (∀ x ∈ [(10 : ℚ)], x ≤ m) ∧
      ((180 : ℤ) : ℚ) ≤ 250 - m) := by
  constructor
  · exact (is_idle_requires_file [] 250 180).1
  · refine (is_idle_requires_file [10] 250 180).2 ?_
    have hmax : ((max 0 10 : ℚ)) = 10 := max_eq_right (by norm_num)
    simp only [is_idle, List.foldl_cons, List.foldl_nil, hmax]
    norm_num

/-- The duration fold of pick_keeper (max()) bounds its seed. -/
theorem foldl_maxdur_seed_le (l : List MediaInfo) (a : ℚ) :
    a ≤ l.foldl (fun m j => max m j.duration) a := by
  induction l generalizing a with
  | nil => exact le_refl a
  | cons y t ih =>
    exact le_trans (le_max_left a y.duration) (ih (max a y.duration))

/-- The duration fold of pick_keeper bounds every list element. -/
theorem foldl_maxdur_ge (l : List MediaInfo) (a : ℚ) :
    ∀ x ∈ l, x.duration ≤ l.foldl (fun m j => max m j.duration) a := by
  induction l generalizing a with
  | nil => intro x hx; cases hx
  | cons y t ih =>
    intro x hx
    rw [List.mem_cons] at hx
    rcases hx with hx | hx
    · rw [hx, List.foldl_cons]
      exact le_trans (le_max_right a y.duration) (foldl_maxdur_seed_le t _)
    · exact ih (max a y.duration) x hx

/-- Every candidate's duration is bounded by the bucket maximum. -/
theorem maxDuration_ge (cands : List MediaInfo) :
    ∀ i ∈ cands, i.duration ≤ maxDuration cands := by
  match cands with
  | [] => intro i hi; cases hi
  | c :: rest =>
    intro i hi
    rw [List.mem_cons] at hi
    rw [maxDuration]
    rcases hi with hi | hi
    · rw [hi]
      exact foldl_maxdur_seed_le rest c.duration
    · exact foldl_maxdur_ge rest c.duration i hi

/-- Claim C6: when every probed file's duration is below
min_minutes*60 seconds the keeper selection raises its no-candidate
error instead of returning a file, and when at least one file meets the
minimum it never raises that error. -/
theorem pick_keeper_no_candidate (probe : List Char → Option MediaInfo)
    (paths : List (List Char)) (infos : List MediaInfo) (mm tol : ℚ)
    (pa : Bool) (hp : probeAll probe paths = Except.ok infos)
    (_hne : infos ≠ []) :
    ((∀ i ∈ infos, i.duration < mm * 60) →
      pick_keeper probe paths mm tol pa = Except.error RipError.noCandidate) ∧
    ((∃ i ∈ infos, mm * 60 ≤ i.duration) →
      pick_keeper probe paths mm tol pa ≠ Except.error RipError.noCandidate) := by
  constructor
  · intro hall
    have hc : candidatesOf infos mm = [] := by
      rw [candidatesOf, List.filter_eq_nil_iff]
      intro a ha
      simpa using not_le.mpr (hall a ha)
    simp [pick_keeper, hp, hc]
  · intro hex
    obtain ⟨i, hi, hdur⟩ := hex
    have hc : candidatesOf infos mm ≠ [] := by
      have hmem : i ∈ candidatesOf infos mm :=
        List.mem_filter.mpr ⟨hi, by simpa using hdur⟩
      exact List.ne_nil_of_mem hmem
    simp only [pick_keeper, hp]
    rw [if_neg hc]
    rcases hb : bucketOf (candidatesOf infos mm) tol with _ | ⟨x, _ | ⟨y, t⟩⟩
    · simp
    · simp
    · rcases hf : (if pa = true then
          List.find? (fun i => decide (label_angle i.path = some 1)) (x :: y :: t)
          else none) with _ | k
      · rcases hms : (x :: y :: t).mergeSort scoreDesc with _ | ⟨b, bs⟩ <;>
          simp [hf, hms]
      · simp [hf]

/-- Witness for claim C6: a single 60-second probe result is below a
45-minute minimum and selection raises no-candidate, while with a
1-minute minimum it does not raise that error. -/
theorem pick_keeper_no_candidate_witness :
    pick_keeper (probeTable [("a.mkv".toList, mkInfo "a.mkv".toList 60 1000)])
      ["a.mkv".toList] 45 (5 / 2) false = Except.error RipError.noCandidate ∧
    pick_keeper (probeTable [("a.mkv".toList, mkInfo "a.mkv".toList 60 1000)])
      ["a.mkv".toList] 1 (5 / 2) false ≠ Except.error RipError.noCandidate := by
  constructor
  · refine (pick_keeper_no_candidate
      (probeTable [("a.mkv".toList, mkInfo "a.mkv".toList 60 1000)])
      ["a.mkv".toList] [mkInfo "a.mkv".toList 60 1000] 45 (5 / 2)
      false (by rfl) (by simp) ).1 ?_
    intro i hi
    rw [List.mem_singleton] at hi
    rw [hi]
    show (60 : ℚ) < 45 * 60
    norm_num
  · refine (pick_keeper_no_candidate
      (probeTable [("a.mkv".toList, mkInfo "a.mkv".toList 60 1000)])
      ["a.mkv".toList] [mkInfo "a.mkv".toList 60 1000] 1 (5 / 2)
      false (by rfl) (by simp) ).2 ?_
    refine ⟨mkInfo "a.mkv".toList 60 1000, List.mem_singleton_self _, ?_⟩
    show (1 : ℚ) * 60 ≤ 60
    norm_num

/-- Every file returned by pick_keeper is a member of the longest
bucket: each of the three return sites (singleton bucket, angle-1 scan,
score sort) yields a bucket member. -/
theorem pick_keeper_ok_mem_bucket (probe : List Char → Option MediaInfo)
    (paths : List (List Char)) (infos : List MediaInfo) (mm tol : ℚ)
    (pa : Bool) (r : MediaInfo)
    (hp : probeAll probe paths = Except.ok infos)
    (hr : pick_keeper probe paths mm tol pa = Except.ok r) :
    r ∈ bucketOf (candidatesOf infos mm) tol := by
  simp only [pick_keeper, hp] at hr
  by_cases hc : candidatesOf infos mm = []
  · rw [if_pos hc] at hr; cases hr
  · rw [if_neg hc] at hr
    rcases hb : bucketOf (candidatesOf infos mm) tol with _ | ⟨x, _ | ⟨y, t⟩⟩ <;>
      rw [hb] at hr
    · simp at hr
    · simp at hr
      rw [hr]
      exact List.mem_singleton_self r
    · dsimp only [] at hr
      rcases hf : (if pa = true then
          List.find? (fun i => decide (label_angle i.path = some 1)) (x :: y :: t)
          else none) with _ | k
      · rcases hms : (x :: y :: t).mergeSort scoreDesc with _ | ⟨b, bs⟩ <;>
          simp [hf, hms] at hr
        have hbmem : b ∈ (x :: y :: t).mergeSort scoreDesc := by
          rw [hms]; exact List.mem_cons_self b bs
        rw [← hr]
        exact (List.mergeSort_perm (x :: y :: t) scoreDesc).mem_iff.mp hbmem
      · have hfind : List.find? (fun i => decide (label_angle i.path = some 1))
            (x :: y :: t) = some k := by
          by_cases hpa : pa = true
          · rwa [if_pos hpa] at hf
          · rw [if_neg hpa] at hf; cases hf
        simp [hf] at hr
        rw [← hr]
        exact List.mem_of_find?_eq_some hfind

/-- Claim C5: whatever pick_keeper returns lies in the longest bucket,
so its duration is within duration_tol of the maximum candidate
duration, and any candidate whose duration is more than duration_tol
below the maximum is excluded from the bucket and can never be the
selection result, regardless of its heuristic score. -/
theorem pick_keeper_never_short (probe : List Char → Option MediaInfo)
    (paths : List (List Char)) (infos : List MediaInfo) (mm tol : ℚ)
    (pa : Bool) (r : MediaInfo)
    (hp : probeAll probe paths = Except.ok infos)
    (hr : pick_keeper probe paths mm tol pa = Except.ok r) :
    r ∈ bucketOf (candidatesOf infos mm) tol ∧
    |r.duration - maxDuration (candidatesOf infos mm)| ≤ tol ∧
    (∀ i ∈ candidatesOf infos mm,
      tol < maxDuration (candidatesOf infos mm) - i.duration →
      i ∉ bucketOf (candidatesOf infos mm) tol ∧ r ≠ i) := by
  have hmem := pick_keeper_ok_mem_bucket probe paths infos mm tol pa r hp hr
  have habs : |r.duration - maxDuration (candidatesOf infos mm)| ≤ tol := by
    have := (List.mem_filter.mp hmem).2
    exact of_decide_eq_true this
  refine ⟨hmem, habs, ?_⟩
  intro i hi hgap
  have hle : i.duration ≤ maxDuration (candidatesOf infos mm) :=
    maxDuration_ge (candidatesOf infos mm) i hi
  have hiabs : ¬(|i.duration - maxDuration (candidatesOf infos mm)| ≤ tol) := by
    rw [abs_sub_comm, abs_of_nonneg (by linarith)]
    linarith
  constructor
  · intro hinb
    exact hiabs (of_decide_eq_true (List.mem_filter.mp hinb).2)
  · intro hri
    rw [hri] at habs
    exact hiabs habs

/-- Witness for claim C5: probes of 100s and 5000s with tolerance 2.5s
put only the 5000s file in the bucket; selection returns it and the
100s file is excluded. -/
theorem pick_keeper_never_short_witness :
    mkInfo "b.mkv".toList 5000 1000 ∈
      bucketOf (candidatesOf [mkInfo "a.mkv".toList 100 1000,
        mkInfo "b.mkv".toList 5000 1000] 1) (5 / 2) ∧
    |(mkInfo "b.mkv".toList 5000 1000).duration -
      maxDuration (candidatesOf [mkInfo "a.mkv".toList 100 1000,
        mkInfo "b.mkv".toList 5000 1000] 1)| ≤ 5 / 2 ∧
    (∀ i ∈ candidatesOf [mkInfo "a.mkv".toList 100 1000,
        mkInfo "b.mkv".toList 5000 1000] 1,
      5 / 2 < maxDuration (candidatesOf [mkInfo "a.mkv".toList 100 1000,
        mkInfo "b.mkv".toList 5000 1000] 1) - i.duration →
      i ∉ bucketOf (candidatesOf [mkInfo "a.mkv".toList 100 1000,
        mkInfo "b.mkv".toList 5000 1000] 1) (5 / 2) ∧
      mkInfo "b.mkv".toList 5000 1000 ≠ i) := by
  have hprobe : probeAll
      (probeTable [("a.mkv".toList, mkInfo "a.mkv".toList 100 1000),
        ("b.mkv".toList, mkInfo "b.mkv".toList 5000 1000)])
      ["a.mkv".toList, "b.mkv".toList]
      = Except.ok [mkInfo "a.mkv".toList 100 1000,
        mkInfo "b.mkv".toList 5000 1000] := by
    simp [probeAll, probeTable]
  have hcand : candidatesOf [mkInfo "a.mkv".toList 100 1000,
      mkInfo "b.mkv".toList 5000 1000] 1
      = [mkInfo "a.mkv".toList 100 1000, mkInfo "b.mkv".toList 5000 1000] := by
    norm_num [candidatesOf, List.filter, mkInfo]
  have hmax : maxDuration [mkInfo "a.mkv".toList 100 1000,
      mkInfo "b.mkv".toList 5000 1000] = 5000 := by
    norm_num [maxDuration, mkInfo]
  have hbuck : bucketOf [mkInfo "a.mkv".toList 100 1000,
      mkInfo "b.mkv".toList 5000 1000] (5 / 2)
      = [mkInfo "b.mkv".toList 5000 1000] := by
    simp only [bucketOf, hmax]
    norm_num [List.filter, mkInfo]
  have hpick : pick_keeper
      (probeTable [("a.mkv".toList, mkInfo "a.mkv".toList 100 1000),
        ("b.mkv".toList, mkInfo "b.mkv".toList 5000 1000)])
      ["a.mkv".toList, "b.mkv".toList] 1 (5 / 2) false
      = Except.ok (mkInfo "b.mkv".toList 5000 1000) := by
    simp only [pick_keeper, hprobe]
    rw [hcand, hbuck]
    simp
  exact pick_keeper_never_short
    (probeTable [("a.mkv".toList, mkInfo "a.mkv".toList 100 1000),
      ("b.mkv".toList, mkInfo "b.mkv".toList 5000 1000)])
    ["a.mkv".toList, "b.mkv".toList]
    [mkInfo "a.mkv".toList 100 1000, mkInfo "b.mkv".toList 5000 1000]
    1 (5 / 2) false (mkInfo "b.mkv".toList 5000 1000) (by rfl) hpick

/-- Claim C4: with at least two files in the longest bucket and
prefer_angle_1 set, if some bucket member carries an angle-1 label the
first such member (in bucket order) is returned, regardless of
heuristic scores. -/
theorem pick_keeper_prefers_angle1 (probe : List Char → Option MediaInfo)
    (paths : List (List Char)) (infos : List MediaInfo) (mm tol : ℚ)
    (k : MediaInfo) (hp : probeAll probe paths = Except.ok infos)
    (hlen : 2 ≤ (bucketOf (candidatesOf infos mm) tol).length)
    (hfind : (bucketOf (candidatesOf infos mm) tol).find?
      (fun i => label_angle i.path = some 1) = some k) :
    pick_keeper probe paths mm tol true = Except.ok k := by
  have hc : candidatesOf infos mm ≠ [] := by
    intro h
    rw [bucketOf, h, List.filter_nil] at hlen
    simp at hlen
  simp only [pick_keeper, hp]
  rw [if_neg hc]
  rcases hb : bucketOf (candidatesOf infos mm) tol with _ | ⟨x, _ | ⟨y, t⟩⟩
  · rw [hb] at hlen; simp at hlen
  · rw [hb] at hlen; simp at hlen
  · rw [hb] at hfind
    dsimp only []
    rw [if_pos trivial, hfind]

/-- Witness for claim C4: two 5000-second files labelled Angle 1 and
Angle 2; the Angle 2 file has nine times the size (hence the higher
heuristic score), yet the Angle 1 file is selected. -/
theorem pick_keeper_prefers_angle1_witness :
    pick_keeper
      (probeTable [("Angle 1.mkv".toList, mkInfo "Angle 1.mkv".toList 5000 1000),
        ("Angle 2.mkv".toList, mkInfo "Angle 2.mkv".toList 5000 9000)])
      ["Angle 1.mkv".toList, "Angle 2.mkv".toList] 1 (5 / 2) true
      = Except.ok (mkInfo "Angle 1.mkv".toList 5000 1000) ∧
    keeperScore (mkInfo "Angle 1.mkv".toList 5000 1000) <
      keeperScore (mkInfo "Angle 2.mkv".toList 5000 9000) := by
  have hcand : candidatesOf [mkInfo "Angle 1.mkv".toList 5000 1000,
      mkInfo "Angle 2.mkv".toList 5000 9000] 1
      = [mkInfo "Angle 1.mkv".toList 5000 1000,
        mkInfo "Angle 2.mkv".toList 5000 9000] := by
    norm_num [candidatesOf, List.filter, mkInfo]
  have hmax : maxDuration [mkInfo "Angle 1.mkv".toList 5000 1000,
      mkInfo "Angle 2.mkv".toList 5000 9000] = 5000 := by
    norm_num [maxDuration, mkInfo]
  have hbuck : bucketOf [mkInfo "Angle 1.mkv".toList 5000 1000,
      mkInfo "Angle 2.mkv".toList 5000 9000] (5 / 2)
      = [mkInfo "Angle 1.mkv".toList 5000 1000,
        mkInfo "Angle 2.mkv".toList 5000 9000] := by
    simp only [bucketOf, hmax]
    norm_num [List.filter, mkInfo]
  constructor
  · refine pick_keeper_prefers_angle1
      (probeTable [("Angle 1.mkv".toList, mkInfo "Angle 1.mkv".toList 5000 1000),
        ("Angle 2.mkv".toList, mkInfo "Angle 2.mkv".toList 5000 9000)])
      ["Angle 1.mkv".toList, "Angle 2.mkv".toList]
      [mkInfo "Angle 1.mkv".toList 5000 1000,
        mkInfo "Angle 2.mkv".toList 5000 9000] 1 (5 / 2)
      (mkInfo "Angle 1.mkv".toList 5000 1000)
      (by simp [probeAll, probeTable]) ?_ ?_
    · rw [hcand, hbuck]
      decide
    · rw [hcand, hbuck]
      decide
  · norm_num [keeperScore, audio_score, mkInfo]

/-- Creating a directory never changes the file map. -/
theorem mkdirp_files (fs : FS) (d : List Char) :
    (fs.mkdirp d).files = fs.files := by
  rw [FS.mkdirp]
  split <;> rfl

/-- File existence is unaffected by directory creation. -/
theorem mkdirp_fileExists (fs : FS) (d p : List Char) :
    (fs.mkdirp d).fileExists p = fs.fileExists p := by
  rw [FS.fileExists, FS.fileExists, mkdirp_files]

/-- Claim C3: when the computed destination file already exists, the
move step fails with the destination-exists error before any copy or
move, and the file map is unchanged — the existing destination keeps
its content, the keeper source file stays in the working folder, and no
receipt is written. -/
theorem process_never_overwrites (probe : List Char → Option MediaInfo)
    (rip_folder staging_root : List Char) (job : Job)
    (mkvs : List (List Char)) (mm tol : ℚ) (pa : Bool)
    (mode : List Char) (fs : FS) (keeper : MediaInfo)
    (hmk : mkvs ≠ [])
    (hkeep : pick_keeper probe mkvs mm tol pa = Except.ok keeper)
    (hex : fs.fileExists (joinPath (joinPath staging_root (plex_base_name job))
      (plex_base_name job ++ pathSuffix keeper.path)) = true) :
    (process_rip_folder_to_staging probe rip_folder staging_root (some job)
        mkvs mm tol pa mode fs).1
      = Except.error (RipError.destinationExists
          (joinPath (joinPath staging_root (plex_base_name job))
            (plex_base_name job ++ pathSuffix keeper.path))) ∧
    (process_rip_folder_to_staging probe rip_folder staging_root (some job)
        mkvs mm tol pa mode fs).2.files = fs.files := by
  have hex2 : (fs.mkdirp (joinPath staging_root (plex_base_name job))).fileExists
      (joinPath (joinPath staging_root (plex_base_name job))
        (plex_base_name job ++ pathSuffix keeper.path)) = true := by
    rw [mkdirp_fileExists]
    exact hex
  simp only [process_rip_folder_to_staging, hkeep]
  rw [if_neg hmk, if_pos hex2]
  exact ⟨rfl, mkdirp_files fs _⟩

/-- Witness for claim C3: a staging tree that already holds the
computed destination file; the move step errors and the file map is
untouched. -/
theorem process_never_overwrites_witness :
    (process_rip_folder_to_staging
      (probeTable [("m.mkv".toList, mkInfo "m.mkv".toList 5000 1000)])
      "R/work".toList "S".toList
      (some ⟨7, "T".toList, none, "tt1".toList⟩) ["m.mkv".toList]
      1 (5 / 2) false "move".toList
      ⟨[(joinPath (joinPath "S".toList
          (plex_base_name ⟨7, "T".toList, none, "tt1".toList⟩))
          (plex_base_name ⟨7, "T".toList, none, "tt1".toList⟩ ++
            pathSuffix (mkInfo "m.mkv".toList 5000 1000).path), 5)], []⟩).1
    = Except.error (RipError.destinationExists
        (joinPath (joinPath "S".toList
          (plex_base_name ⟨7, "T".toList, none, "tt1".toList⟩))
          (plex_base_name ⟨7, "T".toList, none, "tt1".toList⟩ ++
            pathSuffix (mkInfo "m.mkv".toList 5000 1000).path))) ∧
    (process_rip_folder_to_staging
      (probeTable [("m.mkv".toList, mkInfo "m.mkv".toList 5000 1000)])
      "R/work".toList "S".toList
      (some ⟨7, "T".toList, none, "tt1".toList⟩) ["m.mkv".toList]
      1 (5 / 2) false "move".toList
      ⟨[(joinPath (joinPath "S".toList
          (plex_base_name ⟨7, "T".toList, none, "tt1".toList⟩))
          (plex_base_name ⟨7, "T".toList, none, "tt1".toList⟩ ++
            pathSuffix (mkInfo "m.mkv".toList 5000 1000).path), 5)], []⟩).2.files
    = [(joinPath (joinPath "S".toList
        (plex_base_name ⟨7, "T".toList, none, "tt1".toList⟩))
        (plex_base_name ⟨7, "T".toList, none, "tt1".toList⟩ ++
          pathSuffix (mkInfo "m.mkv".toList 5000 1000).path), 5)] := by
  have hcand : candidatesOf [mkInfo "m.mkv".toList 5000 1000] 1
      = [mkInfo "m.mkv".toList 5000 1000] := by
    norm_num [candidatesOf, List.filter, mkInfo]
  have hbuck : bucketOf [mkInfo "m.mkv".toList 5000 1000] (5 / 2)
      = [mkInfo "m.mkv".toList 5000 1000] := by
    norm_num [bucketOf, maxDuration, List.filter, mkInfo]
  have hkeep : pick_keeper
      (probeTable [("m.mkv".toList, mkInfo "m.mkv".toList 5000 1000)])
      ["m.mkv".toList] 1 (5 / 2) false
      = Except.ok (mkInfo "m.mkv".toList 5000 1000) := by
    have hprobe : probeAll
        (probeTable [("m.mkv".toList, mkInfo "m.mkv".toList 5000 1000)])
        ["m.mkv".toList]
        = Except.ok [mkInfo "m.mkv".toList 5000 1000] := by
      simp [probeAll, probeTable]
    simp only [pick_keeper, hprobe]
    rw [hcand, hbuck]
    simp
  exact process_never_overwrites
    (probeTable [("m.mkv".toList, mkInfo "m.mkv".toList 5000 1000)])
    "R/work".toList "S".toList ⟨7, "T".toList, none, "tt1".toList⟩
    ["m.mkv".toList] 1 (5 / 2) false "move".toList
    ⟨[(joinPath (joinPath "S".toList
        (plex_base_name ⟨7, "T".toList, none, "tt1".toList⟩))
        (plex_base_name ⟨7, "T".toList, none, "tt1".toList⟩ ++
          pathSuffix (mkInfo "m.mkv".toList 5000 1000).path), 5)], []⟩
    (mkInfo "m.mkv".toList 5000 1000)
    (by simp) hkeep (by simp [FS.fileExists])

/-- Claim C1, failing run: a two-item queue whose first disc rips a
single 60-second MKV while the configured minimum main-feature length
is 45 minutes.  The keeper selection inside
process_rip_folder_to_staging raises its no-candidate error, run_queue
has no handler around the call (watcher.py line 153), so the whole run
aborts with that error — with no cancellation requested — and the
second item is never processed: the run result equals that of the
one-item queue.  This contradicts the claimed skip-and-continue policy
for per-item failures. -/
theorem run_queue_aborts_on_item_error :
    (run_queue_items
      ⟨probeTable [("m.mkv".toList, mkInfo "m.mkv".toList 60 1000)],
        fun _ => ["m.mkv".toList], fun _ => "t".toList⟩
      ⟨"R".toList, "S".toList, 45, 5 / 2, false, "move".toList⟩
      [⟨1, "A".toList, none, "tt1".toList⟩, ⟨2, "B".toList, none, "tt2".toList⟩]
      0 ⟨[], []⟩).1 = Except.error RipError.noCandidate ∧
    run_queue_items
      ⟨probeTable [("m.mkv".toList, mkInfo "m.mkv".toList 60 1000)],
        fun _ => ["m.mkv".toList], fun _ => "t".toList⟩
      ⟨"R".toList, "S".toList, 45, 5 / 2, false, "move".toList⟩
      [⟨1, "A".toList, none, "tt1".toList⟩, ⟨2, "B".toList, none, "tt2".toList⟩]
      0 ⟨[], []⟩
    = run_queue_items
      ⟨probeTable [("m.mkv".toList, mkInfo "m.mkv".toList 60 1000)],
        fun _ => ["m.mkv".toList], fun _ => "t".toList⟩
      ⟨"R".toList, "S".toList, 45, 5 / 2, false, "move".toList⟩
      [⟨1, "A".toList, none, "tt1".toList⟩] 0 ⟨[], []⟩ := by
  have hprobe : probeAll (probeTable [("m.mkv".toList, mkInfo "m.mkv".toList 60 1000)])
      ["m.mkv".toList] = Except.ok [mkInfo "m.mkv".toList 60 1000] := by
    simp [probeAll, probeTable]
  have hcand : candidatesOf [mkInfo "m.mkv".toList 60 1000] 45 = [] := by
    norm_num [candidatesOf, List.filter, mkInfo]
  have hpick : pick_keeper (probeTable [("m.mkv".toList, mkInfo "m.mkv".toList 60 1000)])
      ["m.mkv".toList] 45 (5 / 2) false = Except.error RipError.noCandidate := by
    simp only [pick_keeper, hprobe]
    rw [hcand]
    simp
  have hproc : ∀ (rip : List Char) (fs : FS),
      process_rip_folder_to_staging
        (probeTable [("m.mkv".toList, mkInfo "m.mkv".toList 60 1000)])
        rip "S".toList (some ⟨1, "A".toList, none, "tt1".toList⟩)
        ["m.mkv".toList] 45 (5 / 2) false "move".toList fs
      = (Except.error RipError.noCandidate, fs) := by
    intro rip fs
    simp only [process_rip_folder_to_staging, hpick]
    rfl
  constructor
  · simp only [run_queue_items]
    simp only [hproc]
    rfl
  · simp only [run_queue_items]
    simp only [hproc]
    rfl

/-- The Python substring test is contiguous-infix containment. -/
theorem containsSub_infix_iff (n h : List Char) :
    containsSub n h = true ↔ n <:+: h := by
  rw [containsSub, List.any_eq_true]
  constructor
  · rintro ⟨t, ht, hp⟩
    rw [List.mem_tails] at ht
    rw [List.isPrefixOf_iff_prefix] at hp
    exact List.infix_iff_prefix_suffix.mpr ⟨t, hp, ht⟩
  · intro hinf
    obtain ⟨t, hp, ht⟩ := List.infix_iff_prefix_suffix.mp hinf
    exact ⟨t, (List.mem_tails _ _).mpr ht, List.isPrefixOf_iff_prefix.mpr hp⟩

/-- The loop condition of safe_name holds exactly when a double blank
occurs inside the string. -/
theorem hasPair_iff (s : List Char) :
    hasPair s = true ↔ "  ".toList <:+: s :=
  containsSub_infix_iff _ s

/-- One replacement pass only removes characters. -/
theorem replacePairPass_sublist (s : List Char) :
    (replacePairPass s).Sublist s := by
  induction s using replacePairPass.induct with
  | case1 rest ih =>
    rw [replacePairPass.eq_1]
    exact (ih.cons ' ').cons₂ ' '
  | case2 c rest h ih =>
    rw [replacePairPass.eq_2 c rest h]
    exact ih.cons₂ c
  | case3 => exact List.Sublist.refl []

/-- A replacement pass on a string that still contains a double blank
strictly shortens it, so the safe_name loop terminates within
length-many iterations. -/
theorem replacePairPass_length_lt (s : List Char) (h : hasPair s = true) :
    (replacePairPass s).length < s.length := by
  induction s using replacePairPass.induct with
  | case1 rest ih =>
    rw [replacePairPass.eq_1]
    have := (replacePairPass_sublist rest).length_le
    simp only [List.length_cons]
    omega
  | case2 c rest hg ih =>
    have hrest : hasPair rest = true := by
      rw [hasPair_iff] at h
      obtain ⟨pre, post, heq⟩ := h
      match pre with
      | [] =>
        have heq2 : (' ' :: ' ' :: post : List Char) = c :: rest := by
          simpa using heq
        cases heq2
        exact (hg post rfl rfl).elim
      | d :: pre2 =>
        have heq2 : d :: (pre2 ++ ' ' :: ' ' :: post) = c :: rest := by
          simpa using heq
        cases heq2
        rw [hasPair_iff]
        exact ⟨pre2, post, by simp⟩
    rw [replacePairPass.eq_2 c rest hg]
    simp only [List.length_cons]
    exact Nat.succ_lt_succ (ih hrest)
  | case3 => exact absurd h (by decide)

/-- The safe_name loop only removes characters. -/
theorem collapseLoopFuel_sublist (fuel : ℕ) (s : List Char) :
    (collapseLoopFuel fuel s).Sublist s := by
  induction fuel generalizing s with
  | zero => exact List.Sublist.refl s
  | succ fuel ih =>
    rw [collapseLoopFuel]
    by_cases h : hasPair s = true
    · rw [if_pos h]
      exact (ih (replacePairPass s)).trans (replacePairPass_sublist s)
    · rw [if_neg h]

/-- With fuel at least the string length, the safe_name loop ends in a
string with no double blank — the loop condition eventually fails. -/
theorem collapseLoopFuel_noPair (fuel : ℕ) (s : List Char)
    (hf : s.length ≤ fuel) : hasPair (collapseLoopFuel fuel s) = false := by
  induction fuel generalizing s with
  | zero =>
    have hs : s = [] := List.length_eq_zero.mp (Nat.le_zero.mp hf)
    rw [hs]
    decide
  | succ fuel ih =>
    rw [collapseLoopFuel]
    by_cases h : hasPair s = true
    · rw [if_pos h]
      have := replacePairPass_length_lt s h
      exact ih (replacePairPass s) (by omega)
    · rw [if_neg h]
      exact Bool.not_eq_true _ ▸ h

/-- The safe_name loop is the identity on a string that already has no
double blank. -/
theorem collapseLoopFuel_eq_self (fuel : ℕ) (s : List Char)
    (h : hasPair s = false) : collapseLoopFuel fuel s = s := by
  cases fuel with
  | zero => rfl
  | succ fuel =>
    rw [collapseLoopFuel, if_neg]
    rw [h]
    exact Bool.false_ne_true

/-- collapseLoop output has no double blank. -/
theorem collapseLoop_noPair (s : List Char) :
    hasPair (collapseLoop s) = false :=
  collapseLoopFuel_noPair s.length s (le_refl _)

/-- collapseLoop only removes characters. -/
theorem collapseLoop_sublist (s : List Char) :
    (collapseLoop s).Sublist s :=
  collapseLoopFuel_sublist s.length s

/-- collapseLoop is the identity on strings with no double blank. -/
theorem collapseLoop_eq_self (s : List Char) (h : hasPair s = false) :
    collapseLoop s = s :=
  collapseLoopFuel_eq_self s.length s h

/-- Stripping returns a contiguous slice of the string. -/
theorem stripChars_slice (s : List Char) : stripChars s <:+: s := by
  have h1 : List.dropWhile isSpaceCh s <:+ s := List.dropWhile_suffix _
  have h2 : ((List.dropWhile isSpaceCh s).reverse.dropWhile isSpaceCh).reverse
      <+: List.dropWhile isSpaceCh s := by
    rw [← List.reverse_suffix]
    rw [List.reverse_reverse]
    exact List.dropWhile_suffix _
  exact (h2.isInfix).trans h1.isInfix

/-- A slice of a string with no double blank has no double blank. -/
theorem noPair_of_slice (s t : List Char) (h : hasPair s = false)
    (hinf : t <:+: s) : hasPair t = false := by
  by_contra hc
  rw [Bool.not_eq_false, hasPair_iff] at hc
  rw [← Bool.not_eq_true, hasPair_iff] at h
  exact h (hc.trans hinf)

/-- The head of a dropWhile result fails the predicate. -/
theorem dropWhile_head?_not (p : Char → Bool) (l : List Char) (c : Char)
    (h : (List.dropWhile p l).head? = some c) : p c = false := by
  induction l with
  | nil => cases h
  | cons a t ih =>
    rw [List.dropWhile_cons] at h
    by_cases hp : p a = true
    · rw [if_pos hp] at h
      exact ih h
    · rw [if_neg hp] at h
      cases h
      exact Bool.not_eq_true _ ▸ hp

/-- dropWhile is the identity when the head (if any) fails the
predicate. -/
theorem dropWhile_eq_self_of_head? (p : Char → Bool) (l : List Char)
    (h : ∀ c, l.head? = some c → p c = false) :
    List.dropWhile p l = l := by
  cases l with
  | nil => rfl
  | cons a t =>
    rw [List.dropWhile_cons, if_neg]
    rw [h a rfl]
    exact Bool.false_ne_true

/-- Stripping twice is stripping once. -/
theorem stripChars_idem (s : List Char) :
    stripChars (stripChars s) = stripChars s := by
  set u := List.dropWhile isSpaceCh s with hu
  set v := ((u.reverse.dropWhile isSpaceCh).reverse : List Char) with hv
  have hsv : stripChars s = v := rfl
  have hvrev : v.reverse = u.reverse.dropWhile isSpaceCh := by
    rw [hv, List.reverse_reverse]
  have hA : List.dropWhile isSpaceCh v = v := by
    apply dropWhile_eq_self_of_head?
    intro c hc
    have hvu : v <+: u := by
      rw [← List.reverse_suffix, hvrev]
      exact List.dropWhile_suffix _
    obtain ⟨t2, ht2⟩ := hvu
    have hvne : v ≠ [] := by
      intro hemp
      rw [hemp] at hc
      cases hc
    have huh : u.head? = some c := by
      rw [← ht2, List.head?_append_of_ne_nil v hvne, hc]
    exact dropWhile_head?_not isSpaceCh s c huh
  have hB : List.dropWhile isSpaceCh v.reverse = v.reverse := by
    rw [hvrev, List.dropWhile_idempotent]
  rw [hsv]
  show ((List.dropWhile isSpaceCh v).reverse.dropWhile isSpaceCh).reverse = v
  rw [hA, hB, List.reverse_reverse]

/-- Replacing illegal characters leaves no illegal character: the
replacement is an underscore, which is legal. -/
theorem replaceBad_no_bad (s : List Char) :
    ∀ c ∈ replaceBad s, badChar c = false := by
  intro c hc
  rw [replaceBad, List.mem_map] at hc
  obtain ⟨a, _, ha⟩ := hc
  by_cases hb : badChar a = true
  · rw [if_pos hb] at ha
    rw [← ha]
    decide
  · rw [if_neg hb] at ha
    rw [← ha]
    exact Bool.not_eq_true _ ▸ hb

/-- Replacing illegal characters is the identity on strings without
them. -/
theorem replaceBad_eq_self (s : List Char)
    (h : ∀ c ∈ s, badChar c = false) : replaceBad s = s := by
  rw [replaceBad]
  rw [show s.map (fun c => if badChar c then '_' else c) = s.map id by
    apply List.map_congr_left
    intro a ha
    have hb : badChar a = false := h a ha
    simp [hb]]
  exact List.map_id s

/-- Claim C8: destination-name sanitization is idempotent — applying
safe_name twice gives the same string as applying it once.  The output
of safe_name has no illegal characters, no double blank and no leading
or trailing whitespace, so each of the three stages fixes it. -/
theorem safe_name_idempotent (s : List Char) :
    safe_name (safe_name s) = safe_name s := by
  have hsub : (safe_name s).Sublist (replaceBad s) :=
    ((stripChars_slice (collapseLoop (replaceBad s))).sublist).trans
      (collapseLoop_sublist (replaceBad s))
  have hnobad : ∀ c ∈ safe_name s, badChar c = false := by
    intro c hc
    exact replaceBad_no_bad s c (hsub.mem hc)
  have hnopair : hasPair (safe_name s) = false :=
    noPair_of_slice (collapseLoop (replaceBad s)) (safe_name s)
      (collapseLoop_noPair (replaceBad s))
      (stripChars_slice (collapseLoop (replaceBad s)))
  show stripChars (collapseLoop (replaceBad (safe_name s))) = safe_name s
  rw [replaceBad_eq_self (safe_name s) hnobad]
  rw [collapseLoop_eq_self (safe_name s) hnopair]
  show stripChars (stripChars (collapseLoop (replaceBad s)))
    = stripChars (collapseLoop (replaceBad s))
  exact stripChars_idem (collapseLoop (replaceBad s))

/-- The descending score comparison is transitive. -/
theorem scoreDesc_trans : ∀ a b c : MediaInfo, scoreDesc a b = true →
    scoreDesc b c = true → scoreDesc a c = true := by
  intro a b c hab hbc
  rw [scoreDesc, decide_eq_true_eq] at *
  exact le_trans hbc hab

/-- The descending score comparison is total. -/
theorem scoreDesc_total : ∀ a b : MediaInfo,
    (scoreDesc a b || scoreDesc b a) = true := by
  intro a b
  rw [Bool.or_eq_true, scoreDesc, scoreDesc, decide_eq_true_eq, decide_eq_true_eq]
  exact le_total _ _

/-- Head of the stable descending sort used by pick_keeper: if position
idx holds a maximal-score element and every earlier position scores
strictly less, the sorted list starts with exactly that element.  This
is the stability property of Python's sorted with reverse=True: among
equal maximal scores the earliest input element comes first. -/
theorem mergeSort_head_first_max (bucket : List MediaInfo) (idx : ℕ)
    (hidx : idx < bucket.length)
    (hmax : ∀ (j : ℕ) (hj : j < bucket.length),
      keeperScore (bucket.get ⟨j, hj⟩) ≤ keeperScore (bucket.get ⟨idx, hidx⟩))
    (hfirst : ∀ (j : ℕ) (hj : j < bucket.length), j < idx →
      keeperScore (bucket.get ⟨j, hj⟩) < keeperScore (bucket.get ⟨idx, hidx⟩)) :
    (bucket.mergeSort scoreDesc).head? = some (bucket.get ⟨idx, hidx⟩) := by
  set m := bucket.get ⟨idx, hidx⟩ with hm
  have hperm := List.mergeSort_perm bucket scoreDesc
  have hsorted := List.sorted_mergeSort scoreDesc_trans scoreDesc_total bucket
  have hlen : (bucket.mergeSort scoreDesc).length = bucket.length := hperm.length_eq
  rcases hms : bucket.mergeSort scoreDesc with _ | ⟨r, t⟩
  · rw [hms] at hlen
    simp at hlen
    omega
  · rw [hms] at hperm hsorted
    have hrmem : r ∈ bucket := hperm.mem_iff.mp (List.mem_cons_self r t)
    have hrle : keeperScore r ≤ keeperScore m := by
      obtain ⟨⟨j, hj⟩, hget⟩ := List.mem_iff_get.mp hrmem
      rw [← hget]
      exact hmax j hj
    have hmmem : m ∈ r :: t := hperm.mem_iff.mpr (by rw [hm]; exact List.get_mem bucket idx hidx)
    have hmle : keeperScore m ≤ keeperScore r := by
      rcases List.mem_cons.mp hmmem with h | h
      · rw [h]
      · have hd := (List.pairwise_cons.mp hsorted).1 m h
        rw [scoreDesc, decide_eq_true_eq] at hd
        exact hd
    have hrm : r = m := by
      by_contra hne
      have hnotr : ∀ (j : ℕ) (hj : j < bucket.length), j < idx →
          bucket.get ⟨j, hj⟩ ≠ r := by
        intro j hj hlt heq
        have hstrict := hfirst j hj hlt
        rw [heq] at hstrict
        exact absurd (lt_of_le_of_lt hmle hstrict) (lt_irrefl _)
      have hgetElem : bucket[idx] = m := by
        rw [hm, List.get_eq_getElem]
      have hdrop : bucket.drop idx = m :: bucket.drop (idx + 1) := by
        rw [List.drop_eq_getElem_cons hidx, hgetElem]
      have htake0 : List.count r (bucket.take idx) = 0 := by
        rw [List.count_eq_zero]
        intro hmem
        obtain ⟨j, hj, hget⟩ := List.getElem_of_mem hmem
        have hj2 : j < idx := by
          have hl := hj
          rw [List.length_take] at hl
          omega
        have hjb : j < bucket.length := lt_trans hj2 hidx
        rw [List.getElem_take] at hget
        exact hnotr j hjb hj2 (by rw [List.get_eq_getElem]; exact hget)
      have hcnt : List.count r bucket = List.count r (bucket.drop (idx + 1)) := by
        conv_lhs => rw [← List.take_append_drop idx bucket]
        rw [List.count_append, htake0, hdrop, List.count_cons]
        have hmr : (m == r) = false := by
          rw [beq_eq_false_iff_ne]
          exact fun h => hne h.symm
        rw [hmr]
        simp
      have hrep : (List.replicate (List.count r bucket) r).Sublist
          (bucket.drop (idx + 1)) := by
        rw [hcnt]
        exact List.le_count_iff_replicate_sublist.mp (le_refl _)
      have hsub : (m :: List.replicate (List.count r bucket) r).Sublist bucket := by
        have h1 := hrep.cons₂ m
        have h2 : (m :: bucket.drop (idx + 1)).Sublist bucket := by
          rw [← hdrop]
          exact List.drop_sublist idx bucket
        exact h1.trans h2
      have hpair : List.Pairwise (fun a b => scoreDesc a b = true)
          (m :: List.replicate (List.count r bucket) r) := by
        constructor
        · intro x hx
          rw [List.eq_of_mem_replicate hx, scoreDesc, decide_eq_true_eq]
          exact hrle
        · rw [List.pairwise_replicate]
          right
          rw [scoreDesc, decide_eq_true_eq]
      have hsub2 := List.sublist_mergeSort scoreDesc_trans scoreDesc_total hpair hsub
      rw [hms] at hsub2
      cases hsub2 with
      | cons a h2 =>
        have hcle := List.Sublist.count_le h2 r
        have hceq : List.count r (m :: List.replicate (List.count r bucket) r)
            = List.count r bucket := by
          rw [List.count_cons, List.count_replicate]
          have hmr : (m == r) = false := by
            rw [beq_eq_false_iff_ne]
            exact fun h => hne h.symm
          rw [hmr]
          simp
        rw [hceq] at hcle
        have hpc := hperm.count_eq r
        rw [List.count_cons] at hpc
        simp at hpc
        omega
      | cons₂ a h2 => exact hne rfl
    rw [hrm]
    rfl

/-- Claim C7: in the score-based selection step (bucket of two or more,
angle preference not applicable), pick_keeper returns the
highest-scoring bucket member, and among equal maximal scores the one
earliest in input (probe) order: if position idx of the bucket scores
at least every member and strictly above every earlier position, that
element is the result. -/
theorem pick_keeper_highest_score_stable (probe : List Char → Option MediaInfo)
    (paths : List (List Char)) (infos : List MediaInfo) (mm tol : ℚ)
    (pa : Bool) (k : MediaInfo) (idx : ℕ)
    (hp : probeAll probe paths = Except.ok infos)
    (hlen : 2 ≤ (bucketOf (candidatesOf infos mm) tol).length)
    (hangle : pa = false ∨ (bucketOf (candidatesOf infos mm) tol).find?
      (fun i => label_angle i.path = some 1) = none)
    (hidx : (bucketOf (candidatesOf infos mm) tol).get? idx = some k)
    (hmax : ∀ x ∈ bucketOf (candidatesOf infos mm) tol,
      keeperScore x ≤ keeperScore k)
    (hfirst : ∀ (j : ℕ) (x : MediaInfo), j < idx →
      (bucketOf (candidatesOf infos mm) tol).get? j = some x →
      keeperScore x < keeperScore k) :
    pick_keeper probe paths mm tol pa = Except.ok k := by
  have hc : candidatesOf infos mm ≠ [] := by
    have hkmem : k ∈ bucketOf (candidatesOf infos mm) tol := List.get?_mem hidx
    exact List.ne_nil_of_mem (List.mem_filter.mp hkmem).1
  obtain ⟨hlt, hgetk⟩ := List.get?_eq_some.mp hidx
  have hhead : ((bucketOf (candidatesOf infos mm) tol).mergeSort scoreDesc).head?
      = some k := by
    have hres := mergeSort_head_first_max (bucketOf (candidatesOf infos mm) tol)
      idx hlt ?_ ?_
    · rw [hgetk] at hres
      exact hres
    · intro j hj
      rw [hgetk]
      exact hmax _ (List.get_mem _ j hj)
    · intro j hj hjlt
      rw [hgetk]
      exact hfirst j _ hjlt (List.get?_eq_get hj)
  simp only [pick_keeper, hp]
  rw [if_neg hc]
  rcases hb : bucketOf (candidatesOf infos mm) tol with _ | ⟨x, _ | ⟨y, t2⟩⟩
  · rw [hb] at hlen
    simp at hlen
  · rw [hb] at hlen
    simp at hlen
  · dsimp only []
    have hfind : (if pa = true then
        List.find? (fun i => decide (label_angle i.path = some 1)) (x :: y :: t2)
        else none) = none := by
      rcases hangle with h | h
      · rw [h]
        simp
      · rw [hb] at h
        by_cases hpa : pa = true
        · rw [if_pos hpa]
          exact h
        · rw [if_neg hpa]
    rw [hfind]
    rw [hb] at hhead
    rcases hms : (x :: y :: t2).mergeSort scoreDesc with _ | ⟨b, bs⟩
    · rw [hms] at hhead
      cases hhead
    · rw [hms] at hhead
      simp only [List.head?_cons, Option.some.injEq] at hhead
      rw [hhead]

/-- Witness for claim C7: two files with identical durations, sizes
and track data — hence exactly equal scores — and the selection returns
the one probed first. -/
theorem pick_keeper_highest_score_stable_witness :
    pick_keeper
      (probeTable [("a.mkv".toList, mkInfo "a.mkv".toList 5000 1000),
        ("b.mkv".toList, mkInfo "b.mkv".toList 5000 1000)])
      ["a.mkv".toList, "b.mkv".toList] 1 (5 / 2) false
      = Except.ok (mkInfo "a.mkv".toList 5000 1000) ∧
    keeperScore (mkInfo "a.mkv".toList 5000 1000)
      = keeperScore (mkInfo "b.mkv".toList 5000 1000) := by
  have hcand : candidatesOf [mkInfo "a.mkv".toList 5000 1000,
      mkInfo "b.mkv".toList 5000 1000] 1
      = [mkInfo "a.mkv".toList 5000 1000, mkInfo "b.mkv".toList 5000 1000] := by
    norm_num [candidatesOf, List.filter, mkInfo]
  have hbx : bucketOf (candidatesOf [mkInfo "a.mkv".toList 5000 1000,
      mkInfo "b.mkv".toList 5000 1000] 1) (5 / 2)
      = [mkInfo "a.mkv".toList 5000 1000, mkInfo "b.mkv".toList 5000 1000] := by
    rw [hcand]
    norm_num [bucketOf, maxDuration, List.filter, mkInfo]
  have hscore : keeperScore (mkInfo "a.mkv".toList 5000 1000)
      = keeperScore (mkInfo "b.mkv".toList 5000 1000) := by
    norm_num [keeperScore, audio_score, mkInfo]
  refine ⟨?_, hscore⟩
  refine pick_keeper_highest_score_stable
    (probeTable [("a.mkv".toList, mkInfo "a.mkv".toList 5000 1000),
      ("b.mkv".toList, mkInfo "b.mkv".toList 5000 1000)])
    ["a.mkv".toList, "b.mkv".toList]
    [mkInfo "a.mkv".toList 5000 1000, mkInfo "b.mkv".toList 5000 1000]
    1 (5 / 2) false (mkInfo "a.mkv".toList 5000 1000) 0
    (by simp [probeAll, probeTable]) ?_ (Or.inl rfl) ?_ ?_ ?_
  · rw [hbx]
    decide
  · rw [hbx]
    rfl
  · rw [hbx]
    intro x hx
    rcases List.mem_cons.mp hx with h | h
    · rw [h]
    · rw [List.mem_singleton.mp h]
      rw [hscore]
  · intro j x hj hx
    exact absurd hj (Nat.not_lt_zero j)
